import Mathlib

/-!
Verification of the natural-language task parser of the `todo-ai` repository
(`src/services/aiTaskParser.ts`).  The parser and its helper extractors are
embedded shallowly: JavaScript `Date` values become minute timestamps with
civil-calendar conversions, the regular expressions of the source are embedded
as explicit backtracking matchers, and the model-assisted network path is
abstracted by an outcome datatype (its failure modes all fall back to the
rule-based extractor, exactly as in the source).
-/

namespace TodoAI

/-! ### JavaScript `Date` model

A `Date` is modelled as a number of minutes since 1970-01-01T00:00 local time
(the code never reads seconds or milliseconds of the dates it builds, and all
comparisons it performs are preserved at minute granularity).  Civil-calendar
conversions follow the standard era-based algorithms.  No daylight-saving
shifts are modelled: local time is taken as uniform.
-/

/-- Days since 1970-01-01 of the civil date `(y, m, d)` with `m` 1-based.
`d` may lie outside 1..31; the formula is linear in `d`, which is exactly how
JavaScript `Date` normalises day overflow. -/
def daysFromCivil (y m d : Int) : Int :=
  let y2 := if m ≤ 2 then y - 1 else y
  let era := y2.ediv 400
  let yoe := y2 - era * 400
  let doy := (153 * (if 2 < m then m - 3 else m + 9) + 2).ediv 5 + d - 1
  let doe := yoe * 365 + yoe.ediv 4 - yoe.ediv 100 + doy
  era * 146097 + doe - 719468

/-- Civil date `(year, month 1-based, day)` of a day count since 1970-01-01. -/
def civilFromDays (z0 : Int) : Int × Int × Int :=
  let z := z0 + 719468
  let era := z.ediv 146097
  let doe := z - era * 146097
  let yoe := (doe - doe.ediv 1460 + doe.ediv 36524 - doe.ediv 146096).ediv 365
  let y := yoe + era * 400
  let doy := doe - (365 * yoe + yoe.ediv 4 - yoe.ediv 100)
  let mp := (5 * doy + 2).ediv 153
  let d := doy - (153 * mp + 2).ediv 5 + 1
  let m := if mp < 10 then mp + 3 else mp - 9
  (if m ≤ 2 then y + 1 else y, m, d)

/-- A point in local time: minutes since 1970-01-01T00:00. -/
structure DT where
  mins : Int
deriving DecidableEq

instance : LT DT := ⟨fun a b => a.mins < b.mins⟩

instance (a b : DT) : Decidable (a < b) :=
  inferInstanceAs (Decidable (a.mins < b.mins))

/-- Convenience constructor from a valid civil date and time (month 1-based). -/
def mkDT (y mo d h mi : Int) : DT :=
  ⟨(daysFromCivil y mo d) * 1440 + h * 60 + mi⟩

/-- `Date.prototype.getFullYear`. -/
def getFullYear (t : DT) : Int := (civilFromDays (t.mins.ediv 1440)).1

/-- `Date.prototype.getMonth` — 0-based month. -/
def getMonth (t : DT) : Int := (civilFromDays (t.mins.ediv 1440)).2.1 - 1

/-- `Date.prototype.getDate` — day of month, 1-based. -/
def getDate (t : DT) : Int := (civilFromDays (t.mins.ediv 1440)).2.2

/-- `Date.prototype.getDay` — weekday, Sunday = 0 (1970-01-01 was a Thursday). -/
def getDay (t : DT) : Int := (t.mins.ediv 1440 + 4).emod 7

/-- `Date.prototype.getHours`. -/
def getHours (t : DT) : Int := (t.mins.emod 1440).ediv 60

/-- `Date.prototype.getMinutes`. -/
def getMinutes (t : DT) : Int := t.mins.emod 60

/-- `new Date(year, month, day, hour, minute)`: month is 0-based and every
argument may overflow its range; overflow is normalised by carrying, which the
minute-arithmetic performs.  Years 0–99 denote 1900–1999, as in JavaScript. -/
def jsMakeDate (y mo d h mi : Int) : DT :=
  let yAdj := if 0 ≤ y ∧ y ≤ 99 then y + 1900 else y
  let y2 := yAdj + mo.ediv 12
  let m2 := mo.emod 12
  ⟨(daysFromCivil y2 (m2 + 1) 1 + (d - 1)) * 1440 + h * 60 + mi⟩

/-- `date-fns` `addDays`. -/
def addDays (t : DT) (n : Int) : DT := ⟨t.mins + n * 1440⟩

/-- `date-fns` `setHours`: replace the hours field, keeping day and minutes;
out-of-range hours carry into the day, as with the native setter. -/
def setHoursJS (t : DT) (h : Int) : DT :=
  ⟨t.mins - t.mins.emod 1440 + h * 60 + t.mins.emod 60⟩

/-- `date-fns` `setMinutes`: replace the minutes field, keeping the rest. -/
def setMinutesJS (t : DT) (mi : Int) : DT :=
  ⟨t.mins - t.mins.emod 60 + mi⟩

/-- `Date.prototype.setFullYear`: keep month, day and time of day, replace the
year (a Feb-29 day in a non-leap target year carries into March 1). -/
def setFullYearJS (t : DT) (y : Int) : DT :=
  let c := civilFromDays (t.mins.ediv 1440)
  ⟨(daysFromCivil y c.2.1 c.2.2) * 1440 + t.mins.emod 1440⟩

/-- `date-fns` `isValid`: a `Date` built from finite numeric components is
always valid, and every `DT` of this model arises that way. -/
def isValidJS (_ : DT) : Bool := true

/-! ### Character and string utilities (JavaScript semantics) -/

/-- JavaScript regexp `\w`. -/
def isWordChar (c : Char) : Bool := c.isAlpha || c.isDigit || c == '_'

/-- JavaScript regexp `\s`, restricted to the ASCII whitespace the inputs use. -/
def isSpaceJS (c : Char) : Bool :=
  c == ' ' || c == '\t' || c == '\n' || c == '\r' || c == '\x0b' || c == '\x0c'

/-- ASCII lower-casing, as `String.prototype.toLowerCase` on ASCII input. -/
def lowerChar (c : Char) : Char := c.toLower

def toLowerStr (s : String) : String := ⟨s.data.map lowerChar⟩

/-- `String.prototype.trim`, left part: drop leading whitespace. -/
def trimLeft (l : List Char) : List Char := l.dropWhile isSpaceJS

/-- `String.prototype.trim`, right part: drop trailing whitespace. -/
def trimRight : List Char → List Char
  | [] => []
  | c :: cs =>
    match trimRight cs with
    | [] => if isSpaceJS c then [] else [c]
    | r => c :: r

def trimJS (l : List Char) : List Char := trimRight (trimLeft l)

def trimStr (s : String) : String := ⟨trimJS s.data⟩

/-- `replace(/\s+/g, ' ')`: every maximal whitespace run becomes one space. -/
def collapseWS : List Char → List Char
  | [] => []
  | c :: cs =>
    if isSpaceJS c then ' ' :: collapseWS (cs.dropWhile isSpaceJS)
    else c :: collapseWS cs
termination_by l => l.length
decreasing_by
  · have h : ∀ (l : List Char), (l.dropWhile isSpaceJS).length ≤ l.length := by
      intro l
      induction l with
      | nil => simp [List.dropWhile]
      | cons c cs ih =>
        simp only [List.dropWhile]
        split
        · exact Nat.le_succ_of_le ih
        · simp
    simp only [List.length_cons]
    exact Nat.lt_succ_of_le (h cs)
  · simp

/-- A whitespace-collapsed string: whitespace only as single interior `' '`
characters, none leading or trailing. -/
def collapsedOK : List Char → Bool
  | [] => true
  | [c] => !isSpaceJS c
  | a :: b :: t => (!isSpaceJS a || (a == ' ' && !isSpaceJS b)) && collapsedOK (b :: t)

def titleShapeOK (l : List Char) : Bool :=
  (match l with
   | [] => true
   | c :: _ => !isSpaceJS c) && collapsedOK l

/-- `String.prototype.includes` (substring containment). -/
def containsSubList : List Char → List Char → Bool
  | _, [] => true
  | [], _ :: _ => false
  | c :: cs, sub =>
    (sub.isPrefixOf (c :: cs)) || containsSubList cs sub

def containsSub (s sub : String) : Bool := containsSubList s.data sub.data

/-! ### Embedded regular-expression matchers

Each regular expression of the source is embedded as an anchored matcher over
`List Char` returning the unconsumed rest on success, together with a scanner
that tries successive positions, which is exactly how `String.prototype.match`
finds the leftmost match.  Alternations and optional groups backtrack through
`Option.orElse`/explicit fallbacks, and `\d{1,2}` tries two digits before one,
as the backtracking engine of JavaScript does. -/

/-- Word-boundary check for the position before a match whose first character
is a word character (`\b` as it occurs at the start of every scanned pattern). -/
def noPrevWord : Option Char → Bool
  | none => true
  | some c => !isWordChar c

/-- Word-boundary check after a match whose last character is a word character. -/
def boundaryAfter : List Char → Bool
  | [] => true
  | c :: _ => !isWordChar c

/-- Match a literal (given lower-case) case-insensitively at the head. -/
def matchLitCI : List Char → List Char → Option (List Char)
  | [], rest => some rest
  | _ :: _, [] => none
  | p :: ps, c :: cs => if lowerChar c == p then matchLitCI ps cs else none

/-- Ordered alternation `(a₁|a₂|…)` with continuation `k` (receiving the
matched alternative, lower-cased) and backtracking into later alternatives. -/
def tryAlts {α : Type} (alts : List String) (cs : List Char)
    (k : String → List Char → Option α) : Option α :=
  match alts with
  | [] => none
  | a :: rest =>
    match matchLitCI a.data cs with
    | some r =>
      match k a r with
      | some v => some v
      | none => tryAlts rest cs k
    | none => tryAlts rest cs k

def digitVal (c : Char) : Nat := c.toNat - '0'.toNat

/-- `(\d{1,2})` with continuation: greedy two digits, backtracking to one. -/
def matchDigits12 {α : Type} (cs : List Char) (k : Nat → List Char → Option α) :
    Option α :=
  match cs with
  | [] => none
  | c1 :: rest1 =>
    if c1.isDigit then
      match rest1 with
      | c2 :: rest2 =>
        if c2.isDigit then
          match k (digitVal c1 * 10 + digitVal c2) rest2 with
          | some v => some v
          | none => k (digitVal c1) rest1
        else k (digitVal c1) rest1
      | [] => k (digitVal c1) []
    else none

/-- `(\d+)` — greedy, at least one digit; returns its numeric value.  The engine
never backtracks into it here because every following token is a non-digit. -/
def matchDigitsPlus (cs : List Char) : Option (Nat × List Char) :=
  let ds := cs.takeWhile Char.isDigit
  if ds.isEmpty then none
  else some (ds.foldl (fun a c => a * 10 + digitVal c) 0, cs.dropWhile Char.isDigit)

/-- `\s+` — at least one whitespace character, greedy. -/
def matchWS1 (cs : List Char) : Option (List Char) :=
  match cs with
  | c :: rest => if isSpaceJS c then some (rest.dropWhile isSpaceJS) else none
  | [] => none

/-- Scan positions left to right, attempting an anchored matcher at each; when
`needB` is set the position must sit at a `\b` boundary (all scanned patterns
start with a word character). -/
def scanFor {α : Type} (f : List Char → Option α) (needB : Bool) :
    Option Char → List Char → Option α
  | _, [] => none
  | prev, c :: cs =>
    match (if !needB || noPrevWord prev then f (c :: cs) else none) with
    | some v => some v
    | none => scanFor f needB (some c) cs

/-- `new RegExp("\\b(w₁|w₂|…)\\b", "i").test(s)`. -/
def matchWordAlts (alts : List String) (cs : List Char) : Option Unit :=
  tryAlts alts cs (fun _ rest => if boundaryAfter rest then some () else none)

def testWordAlts (alts : List String) (s : String) : Bool :=
  (scanFor (matchWordAlts alts) true none s.data).isSome

/-! ### The parser's specific patterns -/

/-- `\b(\d{1,2})(?::(\d{2}))?\s*(am|pm)\b`, anchored after the leading `\b`:
hour, minutes (0 when the `:MM` group is absent — the source also substitutes 0
then), and whether the marker is `pm`. -/
def matchTimeCore (cs : List Char) : Option (Nat × Nat × Bool) :=
  matchDigits12 cs (fun h rest =>
    let ampm : Nat → List Char → Option (Nat × Nat × Bool) := fun mm r =>
      match r.dropWhile isSpaceJS with
      | a :: m :: r3 =>
        if (lowerChar a == 'a' || lowerChar a == 'p') && lowerChar m == 'm'
            && boundaryAfter r3 then
          some (h, mm, lowerChar a == 'p')
        else none
      | _ => none
    match rest with
    | ':' :: d1 :: d2 :: r2 =>
      if d1.isDigit && d2.isDigit then
        match ampm (digitVal d1 * 10 + digitVal d2) r2 with
        | some v => some v
        | none => ampm 0 rest
      else ampm 0 rest
    | _ => ampm 0 rest)

def findTime (s : String) : Option (Nat × Nat × Bool) :=
  scanFor matchTimeCore true none s.data

/-- The month-name alternation of the source, in its order (`may` is listed
twice there as well). -/
def monthNames : List String :=
  ["january", "february", "march", "april", "may", "june", "july", "august",
   "september", "october", "november", "december",
   "jan", "feb", "mar", "apr", "may", "jun", "jul", "aug", "sep", "oct", "nov", "dec"]

/-- The `monthMap` lookup of the source (0-based months, lower-case keys). -/
def monthMap (s : String) : Option Nat :=
  match s with
  | "january" => some 0 | "jan" => some 0
  | "february" => some 1 | "feb" => some 1
  | "march" => some 2 | "mar" => some 2
  | "april" => some 3 | "apr" => some 3
  | "may" => some 4
  | "june" => some 5 | "jun" => some 5
  | "july" => some 6 | "jul" => some 6
  | "august" => some 7 | "aug" => some 7
  | "september" => some 8 | "sep" => some 8
  | "october" => some 9 | "oct" => some 9
  | "november" => some 10 | "nov" => some 10
  | "december" => some 11 | "dec" => some 11
  | _ => none

def ordinalSuffixes : List String := ["st", "nd", "rd", "th"]

/-- `\b(\d{1,2})(st|nd|rd|th)\s+(of\s+)?(january|…|dec)\b` — "25th June". -/
def matchOrd1 (cs : List Char) : Option (Nat × String) :=
  matchDigits12 cs (fun day rest =>
    tryAlts ordinalSuffixes rest (fun _ r2 =>
      match matchWS1 r2 with
      | none => none
      | some r3 =>
        let monthAt : List Char → Option (Nat × String) := fun r =>
          tryAlts monthNames r (fun m r5 =>
            if boundaryAfter r5 then some (day, m) else none)
        match
          (match matchLitCI ['o', 'f'] r3 with
           | some r4 =>
             match matchWS1 r4 with
             | some r5 => monthAt r5
             | none => none
           | none => none)
        with
        | some v => some v
        | none => monthAt r3))

/-- `\b(january|…|dec)\s+(\d{1,2})(st|nd|rd|th)?\b` — "June 25th", "June 25". -/
def matchOrd2 (cs : List Char) : Option (String × Nat) :=
  tryAlts monthNames cs (fun m r =>
    match matchWS1 r with
    | none => none
    | some r2 =>
      matchDigits12 r2 (fun day r3 =>
        match
          tryAlts ordinalSuffixes r3 (fun _ r4 =>
            if boundaryAfter r4 then some (m, day) else none)
        with
        | some v => some v
        | none => if boundaryAfter r3 then some (m, day) else none))

def findOrd1 (s : String) : Option (Nat × String) :=
  scanFor matchOrd1 true none s.data

def findOrd2 (s : String) : Option (String × Nat) :=
  scanFor matchOrd2 true none s.data

/-- The two-pattern loop over `ordinalDatePatterns`: the first match whose
month resolves and whose day is in 1..31 wins; an unusable first-pattern match
lets the second pattern run (the loop moves on without returning). -/
def ordinalPick (input : String) : Option (Nat × Nat) :=
  let gate : Nat → String → Option (Nat × Nat) := fun day mstr =>
    match monthMap mstr with
    | some m => if 1 ≤ day ∧ day ≤ 31 then some (day, m) else none
    | none => none
  match
    (match findOrd1 input with
     | some (day, mstr) => gate day mstr
     | none => none)
  with
  | some v => some v
  | none =>
    match findOrd2 input with
    | some (mstr, day) => gate day mstr
    | none => none

/-- `\b(\d{1,2})SEP(\d{1,2})(?:SEP(\d{4}))?\b` where `SEP` is `[\/\-]` for the
slash pattern and `\.` for the dot pattern. -/
def matchNum (isSep : Char → Bool) (cs : List Char) :
    Option (Nat × Nat × Option Nat) :=
  matchDigits12 cs (fun first rest =>
    match rest with
    | s :: r2 =>
      if isSep s then
        matchDigits12 r2 (fun second r3 =>
          match
            (match r3 with
             | s2 :: d1 :: d2 :: d3 :: d4 :: r4 =>
               if isSep s2 && d1.isDigit && d2.isDigit && d3.isDigit && d4.isDigit
                   && boundaryAfter r4 then
                 some (first, second,
                   some (digitVal d1 * 1000 + digitVal d2 * 100 +
                         digitVal d3 * 10 + digitVal d4))
               else none
             | _ => none)
          with
          | some v => some v
          | none => if boundaryAfter r3 then some (first, second, none) else none)
      else none
    | [] => none)

def findNumSlash (s : String) : Option (Nat × Nat × Option Nat) :=
  scanFor (matchNum (fun c => c == '/' || c == '-')) true none s.data

def findNumDot (s : String) : Option (Nat × Nat × Option Nat) :=
  scanFor (matchNum (fun c => c == '.')) true none s.data

/-- `/\bin (\d+) days?\b/i` — the captured number of days. -/
def matchInDays (cs : List Char) : Option Nat :=
  match matchLitCI ['i', 'n', ' '] cs with
  | none => none
  | some r =>
    match matchDigitsPlus r with
    | none => none
    | some (n, r2) =>
      match matchLitCI [' ', 'd', 'a', 'y'] r2 with
      | none => none
      | some r3 =>
        match
          (match matchLitCI ['s'] r3 with
           | some r4 => if boundaryAfter r4 then some n else none
           | none => none)
        with
        | some v => some v
        | none => if boundaryAfter r3 then some n else none

def findInDays (s : String) : Option Nat :=
  scanFor matchInDays true none s.data

/-! ### Tag scanning (`/#\w+/g` and `/@\w+/g`) -/

/-- Scanner state for one pass of `/SIGIL\w+/g`: between matches, just after
an unconsumed sigil, or inside a tag (collected characters reversed). -/
inductive TagState where
  | idle
  | sawSig
  | inTag (acc : List Char)

/-- One left-to-right pass collecting every match of `SIGIL\w+` (a sigil
followed by at least one word character), sigil stripped — the JavaScript
global match resumes right after each match, which this scanner mirrors. -/
def scanTagsAux (sig : Char) (st : TagState) : List Char → List String
  | [] =>
    match st with
    | .inTag acc => [⟨acc.reverse⟩]
    | _ => []
  | c :: cs =>
    match st with
    | .idle => scanTagsAux sig (if c == sig then .sawSig else .idle) cs
    | .sawSig =>
      if isWordChar c then scanTagsAux sig (.inTag [c]) cs
      else scanTagsAux sig (if c == sig then .sawSig else .idle) cs
    | .inTag acc =>
      if isWordChar c then scanTagsAux sig (.inTag (c :: acc)) cs
      else ⟨acc.reverse⟩ :: scanTagsAux sig (if c == sig then .sawSig else .idle) cs

/-- All matches of `SIGIL\w+` in input order, sigil stripped
(`tag.substring(1)`). -/
def scanTags (sig : Char) (l : List Char) : List String :=
  scanTagsAux sig .idle l

/-! ### The description pattern `/(?:notes?|details?|description):\s*(.+)/i` -/

/-- A character the dot of the pattern matches (no line terminators). -/
def notTerm (c : Char) : Bool := c != '\n' && c != '\r'

/-- `\s*(.+)` with the engine's backtracking: consume whitespace greedily, and
when no `.`-matchable character remains, give whitespace back one character at
a time until the capture `(.+)` can start. -/
def descCapture : List Char → Option (List Char)
  | [] => none
  | c :: cs =>
    if isSpaceJS c then
      match descCapture cs with
      | some r => some r
      | none =>
        if notTerm c then some ((c :: cs).takeWhile notTerm) else none
    else if notTerm c then some ((c :: cs).takeWhile notTerm) else none

def descKeywords : List String := ["notes", "note", "details", "detail", "description"]

def matchDesc (cs : List Char) : Option (List Char) :=
  tryAlts descKeywords cs (fun _ r =>
    match r with
    | ':' :: r2 => descCapture r2
    | _ => none)

def findDesc (s : String) : Option (List Char) :=
  scanFor matchDesc false none s.data

/-! ### `extractTitle`: sequential global replaces -/

/-- One global replace pass of an anchored matcher (deleting each match), with
the JavaScript semantics: scan left to right, at each position try the matcher
(under a `\b` pre-condition when `needB`), skip the consumed span on success
and continue right after it. -/
def replaceScan (f : List Char → Option (List Char)) (needB : Bool) :
    Option Char → List Char → List Char
  | _, [] => []
  | prev, c :: cs =>
    if needB && !noPrevWord prev then c :: replaceScan f needB (some c) cs
    else
      match f (c :: cs) with
      | some rest =>
        if h : rest.length < cs.length + 1 then
          replaceScan f needB
            (((c :: cs).take (cs.length + 1 - rest.length)).getLastD c) rest
        else c :: replaceScan f needB (some c) cs
      | none => c :: replaceScan f needB (some c) cs
termination_by _ l => l.length
decreasing_by
  · simp
  · simpa using h
  · simp

def titleKeywords1 : List String := ["by", "at", "on", "before", "after", "until"]

/-- `/\b(by|at|on|before|after|until)\s+\d+\s*(am|pm|:\d+)/gi` (pattern 1). -/
def matchT1 (cs : List Char) : Option (List Char) :=
  tryAlts titleKeywords1 cs (fun _ r =>
    match matchWS1 r with
    | none => none
    | some r2 =>
      match matchDigitsPlus r2 with
      | none => none
      | some (_, r3) =>
        let r4 := r3.dropWhile isSpaceJS
        match matchLitCI ['a', 'm'] r4 with
        | some r5 => some r5
        | none =>
          match matchLitCI ['p', 'm'] r4 with
          | some r5 => some r5
          | none =>
            match r4 with
            | ':' :: r5 =>
              match matchDigitsPlus r5 with
              | some (_, r6) => some r6
              | none => none
            | _ => none)

def titleKeywords2 : List String := ["by", "on", "at"]

/-- `/\b(by|on|at)\s+\d{1,2}(st|nd|rd|th)?\s+(january|…|dec)\b/gi` (pattern 2). -/
def matchT2 (cs : List Char) : Option (List Char) :=
  tryAlts titleKeywords2 cs (fun _ r =>
    match matchWS1 r with
    | none => none
    | some r2 =>
      matchDigits12 r2 (fun _ r3 =>
        let monthAfter : List Char → Option (List Char) := fun rr =>
          match matchWS1 rr with
          | none => none
          | some r4 =>
            tryAlts monthNames r4 (fun _ r5 =>
              if boundaryAfter r5 then some r5 else none)
        match
          tryAlts ordinalSuffixes r3 (fun _ rs => monthAfter rs)
        with
        | some v => some v
        | none => monthAfter r3))

/-- `/\b(by|on|at)\s+\d{1,2}\/\d{1,2}(\/\d{4})?\b/gi` (pattern 3). -/
def matchT3 (cs : List Char) : Option (List Char) :=
  tryAlts titleKeywords2 cs (fun _ r =>
    match matchWS1 r with
    | none => none
    | some r2 =>
      matchDigits12 r2 (fun _ r3 =>
        match r3 with
        | '/' :: r4 =>
          matchDigits12 r4 (fun _ r5 =>
            match
              (match r5 with
               | '/' :: d1 :: d2 :: d3 :: d4 :: r6 =>
                 if d1.isDigit && d2.isDigit && d3.isDigit && d4.isDigit
                     && boundaryAfter r6 then some r6
                 else none
               | _ => none)
            with
            | some v => some v
            | none => if boundaryAfter r5 then some r5 else none)
        | _ => none))

/-- A single word alternative with its trailing `\b`. -/
def litB (w : String) (cs : List Char) : Option (List Char) :=
  match matchLitCI w.data cs with
  | some r => if boundaryAfter r then some r else none
  | none => none

/-- A two-word alternative `w₁\s+w₂` with its trailing `\b`. -/
def litWSLitB (w1 w2 : String) (cs : List Char) : Option (List Char) :=
  match matchLitCI w1.data cs with
  | none => none
  | some r =>
    match matchWS1 r with
    | none => none
    | some r2 =>
      match matchLitCI w2.data r2 with
      | none => none
      | some r3 => if boundaryAfter r3 then some r3 else none

/-- `/\b(today|tomorrow|this\s+week|next\s+week)\b/gi` (pattern 4). -/
def matchT4 (cs : List Char) : Option (List Char) :=
  match litB "today" cs with
  | some v => some v
  | none =>
    match litB "tomorrow" cs with
    | some v => some v
    | none =>
      match litWSLitB "this" "week" cs with
      | some v => some v
      | none => litWSLitB "next" "week" cs

def weekdayNames : List String :=
  ["monday", "tuesday", "wednesday", "thursday", "friday", "saturday", "sunday"]

/-- `/\b(monday|tuesday|…|sunday)\b/gi` (pattern 5). -/
def matchT5 (cs : List Char) : Option (List Char) :=
  tryAlts weekdayNames cs (fun _ r => if boundaryAfter r then some r else none)

/-- The priority words stripped one global replace at a time, in source order. -/
def titlePriorityWords : List String :=
  ["urgent", "asap", "critical", "important", "high priority", "low priority"]

/-- `\bWORD\b` for one priority word (spaces inside the word are literal). -/
def matchPrioWord (w : String) (cs : List Char) : Option (List Char) :=
  match matchLitCI w.data cs with
  | some r => if boundaryAfter r then some r else none
  | none => none

/-- `/#\w+/g` or `/@\w+/g` as a deletion matcher. -/
def matchSigil (sig : Char) (cs : List Char) : Option (List Char) :=
  match cs with
  | c :: d :: rest =>
    if c == sig && isWordChar d then some ((d :: rest).dropWhile isWordChar)
    else none
  | _ => none

namespace AITaskParser

/-- `extractTitle`: strip date phrases, priority words and tag tokens, then
trim, collapse whitespace and default to "Untitled Task". -/
def extractTitle (input : String) : String :=
  let t1 := replaceScan matchT1 true none input.data
  let t2 := replaceScan matchT2 true none t1
  let t3 := replaceScan matchT3 true none t2
  let t4 := replaceScan matchT4 true none t3
  let t5 := replaceScan matchT5 true none t4
  let t6 := titlePriorityWords.foldl
    (fun acc w => replaceScan (matchPrioWord w) true none acc) t5
  let t7 := replaceScan (matchSigil '#') false none t6
  let t8 := replaceScan (matchSigil '@') false none t7
  let cleaned := collapseWS (trimJS t8)
  if cleaned.isEmpty then "Untitled Task" else ⟨cleaned⟩

/-- `extractDescription`: `/(?:notes?|details?|description):\s*(.+)/i`,
trimmed capture, absent when the pattern does not match. -/
def extractDescription (input : String) : Option String :=
  match findDesc input with
  | some cap => some ⟨trimJS cap⟩
  | none => none

def urgentWords : List String := ["urgent", "asap", "critical", "emergency", "now"]

def highWords : List String := ["important", "high priority", "soon", "quickly"]

def lowWords : List String := ["low priority", "when possible", "eventually", "sometime"]

def immediacyWords : List String := ["today", "now", "this morning", "this afternoon"]

/-- `extractPriority` (the argument is the lower-cased input, as at the call
site; the regexps are case-insensitive anyway). -/
def extractPriority (input : String) : String :=
  if testWordAlts urgentWords input then "urgent"
  else if testWordAlts highWords input then "high"
  else if testWordAlts lowWords input then "low"
  else if testWordAlts immediacyWords input then "high"
  else "medium"

/-- The category keyword sets, in the object-entry order of the source. -/
def categories : List (String × List String) :=
  [("work", ["work", "office", "meeting", "project", "client", "boss",
             "colleague", "deadline", "presentation", "report"]),
   ("personal", ["personal", "home", "family", "friend", "birthday",
                 "appointment", "shopping", "clean", "organize"]),
   ("health", ["doctor", "gym", "exercise", "workout", "medicine", "health",
               "medical", "therapy", "dentist"]),
   ("learning", ["study", "learn", "course", "book", "read", "research",
                 "tutorial", "practice", "homework"])]

/-- `extractCategory`: first keyword set with a plain-substring hit wins. -/
def extractCategory (input : String) : String :=
  match categories.find? (fun p => p.2.any (fun kw => containsSub input kw)) with
  | some p => p.1
  | none => "other"

/-- `extractTags`: all `#` tokens, then all `@` tokens, sigils stripped. -/
def extractTags (input : String) : List String :=
  scanTags '#' input.data ++ scanTags '@' input.data

/-- The time-of-day extraction at the top of `extractDueDate`:
`targetHour`/`targetMinute`, defaulting to 17:00, with the 12-hour fixups. -/
def extractTime (input : String) : Nat × Nat :=
  match findTime input with
  | some (h, mm, isPm) =>
    let th := if isPm && h != 12 then h + 12
              else if !isPm && h == 12 then 0
              else h
    (th, mm)
  | none => (17, 0)

/-- `setMinutes(setHours(base, targetHour), targetMinute)`. -/
def withTime (base : DT) (h mi : Int) : DT := setMinutesJS (setHoursJS base h) mi

/-- The inner loop of the numeric-date step: both interpretations of a
`D/M[/Y]` match are built (DD/MM first), the first one passing the validity
checks is kept, and it is pushed one year ahead when it lies in the past and
no explicit year was written. -/
def numericResolve (m : Option (Nat × Nat × Option Nat)) (now : DT)
    (currentYear : Int) (targetHour targetMinute : Int) : Option DT :=
  match m with
  | none => none
  | some (first, second, oyear) =>
    let year := match oyear with
      | some y => (y : Int)
      | none => currentYear
    let dates := [jsMakeDate year ((second : Int) - 1) (first : Int) targetHour targetMinute,
                  jsMakeDate year ((first : Int) - 1) (second : Int) targetHour targetMinute]
    match dates.find? (fun d => isValidJS d && getMonth d < 12 && getDate d ≤ 31) with
    | some d =>
      some (if d < now && year == currentYear then setFullYearJS d (currentYear + 1) else d)
    | none => none

def todayWords : List String :=
  ["today", "this morning", "this afternoon", "this evening", "tonight"]

def tomorrowWords : List String :=
  ["tomorrow", "tomorrow morning", "tomorrow afternoon", "tomorrow evening"]

def thisWeekWords : List String := ["this week", "by friday", "end of week"]

/-- The weekday array of the relative-day loop (Sunday first, index = JS
weekday number). -/
def daysArr : List String :=
  ["sunday", "monday", "tuesday", "wednesday", "thursday", "friday", "saturday"]

/-- `extractDueDate input now`: the date cascade of the source, first match
wins.  `now` stands for the `new Date()` calls (the source constructs `now`
and `today` milliseconds apart; they are identified here). -/
def extractDueDate (input : String) (now : DT) : Option DT :=
  let currentYear := getFullYear now
  let tm := extractTime input
  let targetHour : Int := tm.1
  let targetMinute : Int := tm.2
  match ordinalPick input with
  | some (day, month) =>
    some (if jsMakeDate currentYear month day targetHour targetMinute < now then
            setFullYearJS (jsMakeDate currentYear month day targetHour targetMinute)
              (currentYear + 1)
          else jsMakeDate currentYear month day targetHour targetMinute)
  | none =>
  match numericResolve (findNumSlash input) now currentYear targetHour targetMinute with
  | some d => some d
  | none =>
  match numericResolve (findNumDot input) now currentYear targetHour targetMinute with
  | some d => some d
  | none =>
  let low := toLowerStr input
  if testWordAlts todayWords low then
    some (withTime now targetHour targetMinute)
  else if testWordAlts tomorrowWords low then
    some (withTime (addDays now 1) targetHour targetMinute)
  else if testWordAlts thisWeekWords low then
    some (withTime
      (addDays now (if 0 < 5 - getDay now then 5 - getDay now else 7))
      targetHour targetMinute)
  else if testWordAlts ["next week"] low then
    some (withTime (addDays now 7) targetHour targetMinute)
  else
  match (daysArr.enum).find? (fun p => testWordAlts [p.2] low) with
  | some (i, _) =>
    some (withTime
      (addDays now
        (if (i : Int) - getDay now ≤ 0 then (i : Int) - getDay now + 7
         else (i : Int) - getDay now))
      targetHour targetMinute)
  | none =>
  match findInDays low with
  | some n => some (withTime (addDays now (n : Int)) targetHour targetMinute)
  | none => none

end AITaskParser

/-! ### Dynamic values, the normalizer and the parse facade

The model-assisted path hands the normalizer a dynamically-typed JSON value;
`JValue` models the JavaScript values that can reach it.  The network call
itself is abstracted by `ModelOutcome`: every failure mode of the source —
missing credential, transport error, missing content, `JSON.parse` throwing,
or the response not being an object with readable fields (reading `.title` of
`null` throws inside the `try`) — lands in the catch-all branches that fall
back to the rule-based parser. -/

inductive JValue where
  | jnull
  | jundef
  | jbool (b : Bool)
  | jnum (n : Int)
  | jstr (s : String)
  | jarr (xs : List JValue)
  | jdate (d : DT)

/-- The six fields the normalizer reads from the parsed model response. -/
structure JCand where
  title : JValue
  description : JValue
  priority : JValue
  category : JValue
  dueDate : JValue
  tags : JValue

/-- JavaScript truthiness of a `JValue` (a `Date` object is always truthy). -/
def truthyJ : JValue → Bool
  | .jnull => false
  | .jundef => false
  | .jbool b => b
  | .jnum n => n != 0
  | .jstr s => !s.isEmpty
  | .jarr _ => true
  | .jdate _ => true

/-- `String(v)` for the values of the model.  Only the string case matters to
the proofs; the other renderings follow the JavaScript conversions. -/
def jsToString : JValue → String
  | .jnull => "null"
  | .jundef => "undefined"
  | .jbool b => if b then "true" else "false"
  | .jnum n => toString n
  | .jstr s => s
  | .jarr _ => "[array]"
  | .jdate _ => "[date]"

/-- `a || b`. -/
def jsOr (a b : JValue) : JValue := if truthyJ a then a else b

/-- The output record (the `ParsedTask` interface; `priority`/`category` are
kept as strings since the source manipulates them dynamically). -/
@[ext]
structure ParsedTask where
  title : String
  description : Option String
  priority : String
  category : String
  dueDate : Option DT
  tags : List String
deriving DecidableEq

def validPriorities : List String := ["low", "medium", "high", "urgent"]

def validCategories : List String := ["work", "personal", "health", "learning", "other"]

def daysInMonth (y m : Int) : Int :=
  if m == 2 then
    if y.emod 4 == 0 && (y.emod 100 != 0 || y.emod 400 == 0) then 29 else 28
  else if m == 4 || m == 6 || m == 9 || m == 11 then 30
  else 31

/-- Digit-group helper of `parseISOValid`: all characters must be digits and
the resulting calendar point must be valid. -/
def parseISOParts (ys ms ds hs ns ss : List Char) : Option DT :=
  if (ys ++ ms ++ ds ++ hs ++ ns ++ ss).all Char.isDigit then
    let num := fun (l : List Char) => l.foldl (fun (a : Int) c => a * 10 + (digitVal c : Int)) 0
    let y := num ys
    let mo := num ms
    let d := num ds
    let h := num hs
    let mi := num ns
    let se := num ss
    if 1 ≤ mo ∧ mo ≤ 12 ∧ 1 ≤ d ∧ d ≤ daysInMonth y mo ∧ h ≤ 23 ∧ mi ≤ 59 ∧ se ≤ 59 then
      some (mkDT y mo d h mi)
    else none
  else none

/-- `date-fns` `parseISO` followed by the `isValid` check, restricted to the
ISO-8601 forms `YYYY-MM-DD`, `YYYY-MM-DDTHH:MM` and `YYYY-MM-DDTHH:MM:SS`
(local time, seconds not represented beyond validation), which are the forms
exercised here; anything else — in particular any non-string — yields an
invalid date. -/
def parseISOValid (s : String) : Option DT :=
  match s.data with
  | [y1, y2, y3, y4, '-', m1, m2, '-', d1, d2] =>
    parseISOParts [y1, y2, y3, y4] [m1, m2] [d1, d2] ['0', '0'] ['0', '0'] ['0', '0']
  | [y1, y2, y3, y4, '-', m1, m2, '-', d1, d2, 'T', h1, h2, ':', n1, n2] =>
    parseISOParts [y1, y2, y3, y4] [m1, m2] [d1, d2] [h1, h2] [n1, n2] ['0', '0']
  | [y1, y2, y3, y4, '-', m1, m2, '-', d1, d2, 'T', h1, h2, ':', n1, n2, ':', s1, s2] =>
    parseISOParts [y1, y2, y3, y4] [m1, m2] [d1, d2] [h1, h2] [n1, n2] [s1, s2]
  | _ => none

namespace AITaskParser

/-- `parseDueDate`: falsy values are absent; a string is parsed as ISO-8601
and discarded when invalid; a non-string (a `Date` object included) makes
`parseISO` produce an invalid date — or, in the v3 line of the library, throw
into the surrounding `try` — so it is discarded as well. -/
def parseDueDate (v : JValue) : Option DT :=
  if truthyJ v then
    match v with
    | .jstr s => parseISOValid s
    | _ => none
  else none

/-- `validateAndCleanParsedTask`: the single normalization step. -/
def validateAndCleanParsedTask (parsed : JCand) : ParsedTask :=
  { title := trimStr (jsToString (jsOr parsed.title (.jstr "Untitled Task")))
  , description :=
      if truthyJ parsed.description then some (trimStr (jsToString parsed.description))
      else none
  , priority :=
      match parsed.priority with
      | .jstr s => if validPriorities.contains s then s else "medium"
      | _ => "medium"
  , category :=
      match parsed.category with
      | .jstr s => if validCategories.contains s then s else "other"
      | _ => "other"
  , dueDate := parseDueDate parsed.dueDate
  , tags :=
      match parsed.tags with
      | .jarr xs => xs.filterMap (fun v =>
          match v with
          | .jstr s => some s
          | _ => none)
      | _ => [] }

/-- Re-injection of a produced `ParsedTask` into the dynamic candidate shape,
for feeding the normalizer its own output (as the idempotence property does).
An absent field is `undefined`; `tags` is a genuine string array. -/
def taskToJCand (t : ParsedTask) : JCand :=
  { title := .jstr t.title
  , description :=
      match t.description with
      | some s => .jstr s
      | none => .jundef
  , priority := .jstr t.priority
  , category := .jstr t.category
  , dueDate :=
      match t.dueDate with
      | some d => .jdate d
      | none => .jundef
  , tags := .jarr (t.tags.map .jstr) }

/-- `fallbackParse`: the rule-based strategy. -/
def fallbackParse (input : String) (now : DT) : ParsedTask :=
  let lowercaseInput := toLowerStr input
  { title := extractTitle input
  , description := extractDescription input
  , priority := extractPriority lowercaseInput
  , category := extractCategory lowercaseInput
  , dueDate := extractDueDate input now
  , tags := extractTags input }

/-- Outcome of the model-assisted attempt.  `noKey`: no credential configured
(the source then skips the call).  `failed`: the request threw, returned no
content, or `JSON.parse` threw.  `badShape`: the parsed JSON was not an object
whose fields can be read (accessing `.title` throws inside the `try`).  All
three reach the fallback; `ok` carries the readable candidate. -/
inductive ModelOutcome where
  | noKey
  | failed
  | badShape
  | ok (c : JCand)

/-- The `parse` facade: model strategy when it yields a readable candidate,
rule-based fallback on every failure path.  Total by construction — no branch
is missing and no exception escapes (every throwing site of the source sits
inside the `try` whose `catch` returns `fallbackParse(input)`). -/
def parse (input : String) (now : DT) (outcome : ModelOutcome) : ParsedTask :=
  match outcome with
  | .ok c => validateAndCleanParsedTask c
  | _ => fallbackParse input now

end AITaskParser

/-! ### Whitespace lemmas for the trim/collapse pipeline -/

def headNotSpace (l : List Char) : Prop :=
  ∀ c, l.head? = some c → isSpaceJS c = false

def lastNotSpace (l : List Char) : Prop :=
  ∀ c, l.getLast? = some c → isSpaceJS c = false

theorem headNotSpace_trimLeft (l : List Char) : headNotSpace (trimLeft l) := by
  induction l with
  | nil => intro c h; simp [trimLeft, List.dropWhile] at h
  | cons a as ih =>
    intro c h
    by_cases ha : isSpaceJS a
    · simp only [trimLeft, List.dropWhile, ha] at h
      exact ih c h
    · simp only [trimLeft, List.dropWhile, ha, Bool.false_eq_true, List.head?_cons,
        Option.some.injEq] at h
      rw [← h]
      exact Bool.eq_false_iff.mpr ha

theorem lastNotSpace_trimRight (l : List Char) : lastNotSpace (trimRight l) := by
  induction l with
  | nil => intro c h; simp [trimRight] at h
  | cons a as ih =>
    intro c h
    simp only [trimRight] at h
    cases hr : trimRight as with
    | nil =>
      rw [hr] at h
      by_cases ha : isSpaceJS a
      · rw [if_pos ha] at h; simp at h
      · rw [if_neg ha] at h
        simp only [List.getLast?_singleton, Option.some.injEq] at h
        rw [← h]
        exact Bool.eq_false_iff.mpr ha
    | cons d ds =>
      rw [hr] at h
      rw [List.getLast?_cons_cons] at h
      rw [← hr] at h
      exact ih c h

theorem trimRight_head? (l : List Char) :
    trimRight l = [] ∨ (trimRight l).head? = l.head? := by
  cases l with
  | nil => exact Or.inl rfl
  | cons a as =>
    simp only [trimRight]
    cases hr : trimRight as with
    | nil =>
      by_cases ha : isSpaceJS a
      · rw [if_pos ha]; exact Or.inl rfl
      · rw [if_neg ha]; exact Or.inr rfl
    | cons d ds => exact Or.inr rfl

theorem headNotSpace_trimJS (l : List Char) : headNotSpace (trimJS l) := by
  intro c h
  rcases trimRight_head? (trimLeft l) with he | hh
  · rw [trimJS, he] at h; simp at h
  · rw [trimJS, hh] at h
    exact headNotSpace_trimLeft l c h

theorem lastNotSpace_trimJS (l : List Char) : lastNotSpace (trimJS l) :=
  lastNotSpace_trimRight (trimLeft l)

theorem trimLeft_eq_self (l : List Char) (h : headNotSpace l) : trimLeft l = l := by
  cases l with
  | nil => rfl
  | cons a as =>
    have := h a (by simp)
    simp [trimLeft, List.dropWhile, this]

theorem trimRight_eq_self (l : List Char) (h : lastNotSpace l) : trimRight l = l := by
  induction l with
  | nil => rfl
  | cons a as ih =>
    cases as with
    | nil =>
      have := h a (by simp)
      simp [trimRight, this]
    | cons b bs =>
      have hlast : lastNotSpace (b :: bs) := by
        intro c hc
        exact h c (by rw [List.getLast?_cons_cons]; exact hc)
      have hr := ih hlast
      conv_lhs => rw [trimRight, hr]

theorem trimJS_idem (l : List Char) : trimJS (trimJS l) = trimJS l := by
  have h1 : trimLeft (trimJS l) = trimJS l :=
    trimLeft_eq_self _ (headNotSpace_trimJS l)
  have h2 : trimRight (trimJS l) = trimJS l :=
    trimRight_eq_self _ (lastNotSpace_trimJS l)
  rw [trimJS, h1, h2]

theorem trimStr_idem (s : String) : trimStr (trimStr s) = trimStr s := by
  simp only [trimStr, trimJS_idem]

theorem dropWhile_getLast? (p : Char → Bool) (l : List Char)
    (h : l.dropWhile p ≠ []) : (l.dropWhile p).getLast? = l.getLast? := by
  induction l with
  | nil => simp [List.dropWhile] at h
  | cons a as ih =>
    by_cases ha : p a
    · simp only [List.dropWhile, ha] at h ⊢
      have has : as ≠ [] := by
        intro he
        rw [he] at h
        simp [List.dropWhile] at h
      rw [ih h]
      cases as with
      | nil => exact absurd rfl has
      | cons b bs => rw [List.getLast?_cons_cons]
    · simp only [List.dropWhile, ha]

theorem dropWhile_ne_nil_of_lastNotSpace (l : List Char) (hne : l ≠ [])
    (h : lastNotSpace l) : l.dropWhile isSpaceJS ≠ [] := by
  induction l with
  | nil => exact absurd rfl hne
  | cons a as ih =>
    by_cases ha : isSpaceJS a
    · simp only [List.dropWhile, ha]
      have has : as ≠ [] := by
        intro he
        rw [he] at h
        have := h a (by simp)
        rw [this] at ha
        exact Bool.noConfusion ha
      have hlast : lastNotSpace as := by
        intro c hc
        apply h c
        cases as with
        | nil => exact absurd rfl has
        | cons b bs => rw [List.getLast?_cons_cons]; exact hc
      exact ih has hlast
    · simp only [List.dropWhile, ha]
      simp

theorem collapseWS_ne_nil (c : Char) (cs : List Char) : collapseWS (c :: cs) ≠ [] := by
  by_cases hc : isSpaceJS c
  · simp only [collapseWS, hc]
    simp
  · simp only [collapseWS, hc]
    simp

theorem collapseWS_head (c : Char) (cs : List Char) :
    (collapseWS (c :: cs)).head? = some (if isSpaceJS c then ' ' else c) := by
  by_cases hc : isSpaceJS c
  · simp only [collapseWS, hc]
    simp
  · simp only [collapseWS, hc]
    simp

theorem collapsedOK_collapseWS (l : List Char) (h : lastNotSpace l) :
    collapsedOK (collapseWS l) = true := by
  induction l using collapseWS.induct with
  | case1 => simp [collapseWS, collapsedOK]
  | case2 c cs hc ih =>
    have hcs : cs ≠ [] := by
      intro he
      rw [he] at h
      have := h c (by simp)
      rw [this] at hc
      exact Bool.noConfusion hc
    have hlcs : lastNotSpace cs := by
      intro x hx
      apply h x
      cases cs with
      | nil => exact absurd rfl hcs
      | cons b bs => rw [List.getLast?_cons_cons]; exact hx
    have hne : cs.dropWhile isSpaceJS ≠ [] :=
      dropWhile_ne_nil_of_lastNotSpace cs hcs hlcs
    have hlast : lastNotSpace (cs.dropWhile isSpaceJS) := by
      intro x hx
      apply hlcs x
      rw [← dropWhile_getLast? isSpaceJS cs hne]
      exact hx
    have hok := ih hlast
    simp only [collapseWS, hc]
    cases hd : cs.dropWhile isSpaceJS with
    | nil => exact absurd hd hne
    | cons d ds =>
      have hdns : isSpaceJS d = false := by
        have := headNotSpace_trimLeft cs
        rw [trimLeft] at this
        apply this d
        rw [hd]
        simp
      have hh := collapseWS_head d ds
      rw [hdns] at hh
      simp only [Bool.false_eq_true, if_false] at hh
      cases he : collapseWS (d :: ds) with
      | nil => exact absurd he (collapseWS_ne_nil d ds)
      | cons e es =>
        rw [he] at hh
        simp only [List.head?_cons, Option.some.injEq] at hh
        rw [hd] at hok
        rw [he] at hok
        simp only [collapsedOK, hok, Bool.and_true]
        rw [← hh] at hdns
        simp [hdns]
  | case3 c cs hc ih =>
    by_cases hcs : cs = []
    · rw [hcs]
      simp only [collapseWS]
      simp only [hc, Bool.false_eq_true, if_false]
      simp [collapseWS, collapsedOK, Bool.eq_false_iff.mpr hc]
    · have hlcs : lastNotSpace cs := by
        intro x hx
        apply h x
        cases cs with
        | nil => exact absurd rfl hcs
        | cons b bs => rw [List.getLast?_cons_cons]; exact hx
      have hok := ih hlcs
      simp only [collapseWS, hc]
      cases he : collapseWS cs with
      | nil =>
        cases cs with
        | nil => exact absurd rfl hcs
        | cons b bs => exact absurd he (collapseWS_ne_nil b bs)
      | cons e es =>
        rw [he] at hok
        simp only [Bool.false_eq_true, if_false]
        simp only [collapsedOK, hok, Bool.and_true]
        simp [Bool.eq_false_iff.mpr hc]

theorem titleShapeOK_collapse_trim (l : List Char) :
    titleShapeOK (collapseWS (trimJS l)) = true := by
  have hlast := lastNotSpace_trimJS l
  have hhead := headNotSpace_trimJS l
  have hok := collapsedOK_collapseWS (trimJS l) hlast
  rw [titleShapeOK.eq_def, hok, Bool.and_true]
  cases ht : trimJS l with
  | nil => simp [ht, collapseWS]
  | cons c cs =>
    have hc : isSpaceJS c = false := by
      apply hhead c
      rw [ht]
      simp
    have hh := collapseWS_head c cs
    rw [hc] at hh
    simp only [Bool.false_eq_true, if_false] at hh
    cases he : collapseWS (c :: cs) with
    | nil => exact absurd he (collapseWS_ne_nil c cs)
    | cons e es =>
      rw [he] at hh
      simp only [List.head?_cons, Option.some.injEq] at hh
      rw [← hh] at hc
      simp [hc]

/-! ### Schema facts about the extractors and the normalizer -/

theorem extractTitle_ne_empty (input : String) :
    AITaskParser.extractTitle input ≠ "" := by
  simp only [AITaskParser.extractTitle]
  split
  · decide
  · next hne =>
    intro h
    apply hne
    have := congrArg String.data h
    simp only at this
    rw [this]
    rfl

theorem extractTitle_shape (input : String) :
    titleShapeOK (AITaskParser.extractTitle input).data = true := by
  simp only [AITaskParser.extractTitle]
  split
  · decide
  · exact titleShapeOK_collapse_trim _

theorem extractPriority_mem (s : String) :
    AITaskParser.extractPriority s ∈ validPriorities := by
  simp only [AITaskParser.extractPriority]
  split
  · decide
  · split
    · decide
    · split
      · decide
      · split
        · decide
        · decide

theorem extractCategory_mem (s : String) :
    AITaskParser.extractCategory s ∈ validCategories := by
  simp only [AITaskParser.extractCategory]
  cases hf : AITaskParser.categories.find?
      (fun p => p.2.any (fun kw => containsSub s kw)) with
  | none => decide
  | some p =>
    have hmem : p ∈ AITaskParser.categories := List.mem_of_find?_eq_some hf
    simp only [AITaskParser.categories, List.mem_cons, List.not_mem_nil, or_false] at hmem
    rcases hmem with h | h | h | h
    · rw [h]; decide
    · rw [h]; decide
    · rw [h]; decide
    · rw [h]; decide

theorem validate_priority_mem (c : JCand) :
    (AITaskParser.validateAndCleanParsedTask c).priority ∈ validPriorities := by
  simp only [AITaskParser.validateAndCleanParsedTask]
  cases c.priority with
  | jstr s =>
    simp only
    split
    · next h => exact List.mem_of_elem_eq_true h
    · decide
  | jnull => exact (by decide : ("medium" : String) ∈ validPriorities)
  | jundef => exact (by decide : ("medium" : String) ∈ validPriorities)
  | jbool b => exact (by decide : ("medium" : String) ∈ validPriorities)
  | jnum n => exact (by decide : ("medium" : String) ∈ validPriorities)
  | jarr xs => exact (by decide : ("medium" : String) ∈ validPriorities)
  | jdate d => exact (by decide : ("medium" : String) ∈ validPriorities)

theorem validate_category_mem (c : JCand) :
    (AITaskParser.validateAndCleanParsedTask c).category ∈ validCategories := by
  simp only [AITaskParser.validateAndCleanParsedTask]
  cases c.category with
  | jstr s =>
    simp only
    split
    · next h => exact List.mem_of_elem_eq_true h
    · decide
  | jnull => exact (by decide : ("other" : String) ∈ validCategories)
  | jundef => exact (by decide : ("other" : String) ∈ validCategories)
  | jbool b => exact (by decide : ("other" : String) ∈ validCategories)
  | jnum n => exact (by decide : ("other" : String) ∈ validCategories)
  | jarr xs => exact (by decide : ("other" : String) ∈ validCategories)
  | jdate d => exact (by decide : ("other" : String) ∈ validCategories)

/-- The normalizer's title when the candidate title is falsy. -/
theorem validate_title_falsy (c : JCand) (h : truthyJ c.title = false) :
    (AITaskParser.validateAndCleanParsedTask c).title = "Untitled Task" := by
  simp only [AITaskParser.validateAndCleanParsedTask, jsOr, h, Bool.false_eq_true,
    if_false]
  decide

/-- The normalizer's title when the candidate title is a non-empty string. -/
theorem validate_title_str (c : JCand) (s : String) (hs : c.title = .jstr s)
    (hne : s ≠ "") :
    (AITaskParser.validateAndCleanParsedTask c).title = trimStr s := by
  have hemp : s.isEmpty = false := by
    cases hq : s.isEmpty
    · rfl
    · exact absurd ((String.isEmpty_iff s).mp hq) hne
  have ht : truthyJ (JValue.jstr s) = true := by
    simp only [truthyJ, hemp, Bool.not_false]
  simp only [AITaskParser.validateAndCleanParsedTask, jsOr, hs, ht, if_true, jsToString]

/-! ### Claim C2 — numeric date interpretation -/

/-- Claim C2, evaluated on the failing input: the spec says that for
"6/25"-style inputs, where only the MM/DD reading is calendar-valid, the MM/DD
reading (June 25 of the current year) is returned.  The code instead returns
the DD/MM reading `new Date(2025, 24, 6, …)`, which JavaScript normalises by
carrying month 24 into the year, giving January 6, 2027 — the "calendar-valid"
guard `getMonth() < 12 && getDate() <= 31` is vacuously true of every
constructed `Date`, so the first interpretation always wins.  With
`now = 2025-06-01T09:00`, the input "Pay bills 6/25" yields 2027-01-06T17:00,
not 2025-06-25T17:00. -/
theorem c2_numeric_slash_eval :
    AITaskParser.extractDueDate "Pay bills 6/25" (mkDT 2025 6 1 9 0) =
      some (mkDT 2027 1 6 17 0)
    ∧ getFullYear (mkDT 2027 1 6 17 0) = 2027
    ∧ getMonth (mkDT 2027 1 6 17 0) = 0
    ∧ getDate (mkDT 2027 1 6 17 0) = 6
    ∧ mkDT 2027 1 6 17 0 ≠ mkDT 2025 6 25 17 0 := by
  refine ⟨by decide, by decide, by decide, by decide, by decide⟩

/-! ### Claim C4 — tag extraction order -/

/-- Claim C4, refuted as stated: the spec's example asserts the tags of
"Call client #work @bob about #work" appear in order of first appearance in
the input, i.e. `["work", "bob", "work"]`; the code collects all hashtags
first and then all mentions. -/
theorem c4_tags_not_interleaved :
    AITaskParser.extractTags "Call client #work @bob about #work" ≠
      ["work", "bob", "work"] := by
  decide

/-- Claim C4 as amended: the tag extractor returns the `#` tokens in input
order followed by the `@` tokens in input order, sigils stripped and
duplicates preserved; the example input therefore yields
`["work", "work", "bob"]`. -/
theorem c4_tags_grouped :
    AITaskParser.extractTags "Call client #work @bob about #work" =
      ["work", "work", "bob"]
    ∧ ∀ s : String,
        AITaskParser.extractTags s = scanTags '#' s.data ++ scanTags '@' s.data := by
  exact ⟨by decide, fun s => rfl⟩

/-! ### Claim C5 — normalizer title invariant -/

/-- Claim C5, refuted as stated: a whitespace-only (hence truthy) candidate
title is not replaced by "Untitled Task"; `String(' ').trim()` is the empty
string, so the normalized title is empty — neither non-empty nor the default. -/
theorem c5_blank_title :
    (AITaskParser.validateAndCleanParsedTask
      ⟨.jstr " ", .jundef, .jstr "high", .jstr "work", .jnull, .jarr []⟩).title = ""
    ∧ ("" : String) ≠ "Untitled Task" := by
  exact ⟨by decide, by decide⟩

/-- Claim C5 as amended: the normalizer substitutes "Untitled Task" exactly
when the candidate title is falsy (missing, null, or the empty string) and
otherwise merely trims the candidate title — so a whitespace-only candidate
title yields the empty string, and interior whitespace is not collapsed (the
concrete part: title `" x  y "` normalizes to `"x  y"`). -/
theorem c5_title_amended :
    (∀ c : JCand, truthyJ c.title = false →
      (AITaskParser.validateAndCleanParsedTask c).title = "Untitled Task")
    ∧ (∀ (c : JCand) (s : String), c.title = .jstr s → s ≠ "" →
        (AITaskParser.validateAndCleanParsedTask c).title = trimStr s)
    ∧ (AITaskParser.validateAndCleanParsedTask
        ⟨.jstr " x  y ", .jundef, .jundef, .jundef, .jnull, .jarr []⟩).title = "x  y" := by
  exact ⟨validate_title_falsy, validate_title_str, by decide⟩

/-- Witness for `c5_title_amended`: both universally quantified parts applied
at concrete candidates. -/
theorem c5_title_amended_witness :
    (AITaskParser.validateAndCleanParsedTask
      ⟨.jnull, .jundef, .jundef, .jundef, .jnull, .jarr []⟩).title = "Untitled Task"
    ∧ (AITaskParser.validateAndCleanParsedTask
        ⟨.jstr " hello ", .jundef, .jundef, .jundef, .jnull, .jarr []⟩).title =
          trimStr " hello " := by
  exact ⟨c5_title_amended.1 _ (by decide),
    c5_title_amended.2.1 _ " hello " rfl (by decide)⟩

/-! ### Claim C3 — normalization idempotence -/

/-- Claim C3, refuted as stated: a well-typed candidate carrying an ISO-string
due date is not a fixed point of double normalization.  The first pass parses
the string into a `Date`; feeding the result back in, `parseISO` receives a
non-string and produces an invalid date, so the second pass silently drops the
due date. -/
theorem c3_not_idempotent :
    AITaskParser.validateAndCleanParsedTask
      (AITaskParser.taskToJCand (AITaskParser.validateAndCleanParsedTask
        ⟨.jstr "A", .jundef, .jstr "medium", .jstr "work",
         .jstr "2025-06-25T17:00:00", .jarr []⟩)) ≠
    AITaskParser.validateAndCleanParsedTask
      ⟨.jstr "A", .jundef, .jstr "medium", .jstr "work",
       .jstr "2025-06-25T17:00:00", .jarr []⟩ := by
  decide

/-- Tag re-extraction is the identity on the normalizer's own output. -/
theorem tags_roundtrip (l : List String) :
    (l.map JValue.jstr).filterMap (fun v =>
      match v with
      | JValue.jstr s => some s
      | _ => none) = l := by
  induction l with
  | nil => rfl
  | cons a as ih => simp [List.filterMap_cons, ih]

/-- Claim C3 as amended: normalization is idempotent on every well-typed
candidate whose due date is absent or unparseable and whose title and
description are either absent/empty or keep content after trimming.  (The
counterexample forces the due-date exclusion: a parseable ISO-string due date
is dropped by the second pass.  A whitespace-only, non-empty title or
description likewise breaks idempotence, so those degenerate strings are
excluded as well.) -/
theorem c3_idempotent_amended :
    ∀ (c : JCand) (ts : String),
      c.title = .jstr ts →
      (ts = "" ∨ trimStr ts ≠ "") →
      (c.description = .jundef ∨ c.description = .jnull ∨
        ∃ ds, c.description = .jstr ds ∧ (ds = "" ∨ trimStr ds ≠ "")) →
      AITaskParser.parseDueDate c.dueDate = none →
      AITaskParser.validateAndCleanParsedTask
        (AITaskParser.taskToJCand (AITaskParser.validateAndCleanParsedTask c)) =
        AITaskParser.validateAndCleanParsedTask c := by
  intro c ts htitle htcond hdesc hdue
  have hprio := validate_priority_mem c
  have hcat := validate_category_mem c
  set t := AITaskParser.validateAndCleanParsedTask c with hdef
  have htit : t.title ≠ "" ∧ trimStr t.title = t.title := by
    rcases htcond with he | hne
    · have hu : t.title = "Untitled Task" := by
        apply validate_title_falsy
        rw [htitle, he]
        decide
      rw [hu]
      exact ⟨by decide, by decide⟩
    · have hts : ts ≠ "" := by
        intro h
        exact hne (by rw [h]; decide)
      have hv : t.title = trimStr ts := validate_title_str c ts htitle hts
      rw [hv]
      exact ⟨hne, trimStr_idem ts⟩
  have hdres : t.description = none ∨
      ∃ d, t.description = some d ∧ d ≠ "" ∧ trimStr d = d := by
    rcases hdesc with h | h | ⟨ds, h, hc⟩
    · left
      show (if truthyJ c.description = true
            then some (trimStr (jsToString c.description)) else none) = none
      rw [h]
      rfl
    · left
      show (if truthyJ c.description = true
            then some (trimStr (jsToString c.description)) else none) = none
      rw [h]
      rfl
    · rcases hc with he | hne
      · left
        show (if truthyJ c.description = true
              then some (trimStr (jsToString c.description)) else none) = none
        rw [h, he]
        rfl
      · right
        have hds : ds ≠ "" := by
          intro hx
          exact hne (by rw [hx]; decide)
        have hem : ds.isEmpty = false := by
          cases hq : ds.isEmpty
          · rfl
          · exact absurd ((String.isEmpty_iff ds).mp hq) hds
        refine ⟨trimStr ds, ?_, hne, trimStr_idem ds⟩
        show (if truthyJ c.description = true
              then some (trimStr (jsToString c.description)) else none) =
          some (trimStr ds)
        rw [h]
        simp [truthyJ, jsToString, hem]
  have hT : (AITaskParser.validateAndCleanParsedTask
      (AITaskParser.taskToJCand t)).title = t.title := by
    have := validate_title_str (AITaskParser.taskToJCand t) t.title rfl htit.1
    rw [this, htit.2]
  have hD : (AITaskParser.validateAndCleanParsedTask
      (AITaskParser.taskToJCand t)).description = t.description := by
    rcases hdres with h | ⟨d, h, hne, hfix⟩
    · show (if truthyJ (AITaskParser.taskToJCand t).description = true
            then some (trimStr (jsToString (AITaskParser.taskToJCand t).description))
            else none) = t.description
      have : (AITaskParser.taskToJCand t).description = .jundef := by
        show (match t.description with
              | some s => JValue.jstr s
              | none => JValue.jundef) = JValue.jundef
        rw [h]
      rw [this, h]
      rfl
    · have hem : d.isEmpty = false := by
        cases hq : d.isEmpty
        · rfl
        · exact absurd ((String.isEmpty_iff d).mp hq) hne
      show (if truthyJ (AITaskParser.taskToJCand t).description = true
            then some (trimStr (jsToString (AITaskParser.taskToJCand t).description))
            else none) = t.description
      have hjd : (AITaskParser.taskToJCand t).description = .jstr d := by
        show (match t.description with
              | some s => JValue.jstr s
              | none => JValue.jundef) = JValue.jstr d
        rw [h]
      rw [hjd, h]
      simp [truthyJ, jsToString, hem, hfix]
  have hP : (AITaskParser.validateAndCleanParsedTask
      (AITaskParser.taskToJCand t)).priority = t.priority := by
    show (if validPriorities.contains t.priority = true then t.priority else "medium") =
      t.priority
    have hc2 : validPriorities.contains t.priority = true :=
      List.elem_eq_true_of_mem hprio
    rw [hc2]
    rfl
  have hC : (AITaskParser.validateAndCleanParsedTask
      (AITaskParser.taskToJCand t)).category = t.category := by
    show (if validCategories.contains t.category = true then t.category else "other") =
      t.category
    have hc2 : validCategories.contains t.category = true :=
      List.elem_eq_true_of_mem hcat
    rw [hc2]
    rfl
  have htd : t.dueDate = none := hdue
  have hDD : (AITaskParser.validateAndCleanParsedTask
      (AITaskParser.taskToJCand t)).dueDate = t.dueDate := by
    show AITaskParser.parseDueDate (AITaskParser.taskToJCand t).dueDate = t.dueDate
    have : (AITaskParser.taskToJCand t).dueDate = .jundef := by
      show (match t.dueDate with
            | some d => JValue.jdate d
            | none => JValue.jundef) = JValue.jundef
      rw [htd]
    rw [this, htd]
    rfl
  have hTg : (AITaskParser.validateAndCleanParsedTask
      (AITaskParser.taskToJCand t)).tags = t.tags := by
    show (t.tags.map JValue.jstr).filterMap (fun v =>
      match v with
      | JValue.jstr s => some s
      | _ => none) = t.tags
    exact tags_roundtrip t.tags
  exact ParsedTask.ext hT hD hP hC hDD hTg

/-- Witness for `c3_idempotent_amended`: a concrete well-typed candidate with
no due date is a fixed point of double normalization. -/
theorem c3_idempotent_witness :
    AITaskParser.validateAndCleanParsedTask
      (AITaskParser.taskToJCand (AITaskParser.validateAndCleanParsedTask
        ⟨.jstr "Buy milk", .jundef, .jstr "low", .jstr "personal", .jnull,
         .jarr [.jstr "home"]⟩)) =
    AITaskParser.validateAndCleanParsedTask
      ⟨.jstr "Buy milk", .jundef, .jstr "low", .jstr "personal", .jnull,
       .jarr [.jstr "home"]⟩ :=
  c3_idempotent_amended _ "Buy milk" rfl (Or.inr (by decide)) (Or.inl rfl) (by decide)

/-! ### Claim C8 — priority precedence -/

/-- Claim C8: the rule-based priority extractor follows the fixed precedence
urgent-class > high-class > low-class > immediacy words > "medium"; in
particular "urgent but low priority task" is classified "urgent" even though
a low-class keyword is present. -/
theorem c8_priority_precedence :
    (∀ s : String, testWordAlts AITaskParser.urgentWords s = true →
      AITaskParser.extractPriority s = "urgent")
    ∧ (∀ s : String, testWordAlts AITaskParser.urgentWords s = false →
        testWordAlts AITaskParser.highWords s = true →
        AITaskParser.extractPriority s = "high")
    ∧ (∀ s : String, testWordAlts AITaskParser.urgentWords s = false →
        testWordAlts AITaskParser.highWords s = false →
        testWordAlts AITaskParser.lowWords s = true →
        AITaskParser.extractPriority s = "low")
    ∧ (∀ s : String, testWordAlts AITaskParser.urgentWords s = false →
        testWordAlts AITaskParser.highWords s = false →
        testWordAlts AITaskParser.lowWords s = false →
        testWordAlts AITaskParser.immediacyWords s = true →
        AITaskParser.extractPriority s = "high")
    ∧ (∀ s : String, testWordAlts AITaskParser.urgentWords s = false →
        testWordAlts AITaskParser.highWords s = false →
        testWordAlts AITaskParser.lowWords s = false →
        testWordAlts AITaskParser.immediacyWords s = false →
        AITaskParser.extractPriority s = "medium")
    ∧ AITaskParser.extractPriority "urgent but low priority task" = "urgent" := by
  refine ⟨?_, ?_, ?_, ?_, ?_, by decide⟩
  · intro s h1
    simp [AITaskParser.extractPriority, h1]
  · intro s h1 h2
    simp [AITaskParser.extractPriority, h1, h2]
  · intro s h1 h2 h3
    simp [AITaskParser.extractPriority, h1, h2, h3]
  · intro s h1 h2 h3 h4
    simp [AITaskParser.extractPriority, h1, h2, h3, h4]
  · intro s h1 h2 h3 h4
    simp [AITaskParser.extractPriority, h1, h2, h3, h4]

/-- Witness for `c8_priority_precedence`: the low-class and default branches
at concrete inputs. -/
theorem c8_priority_witness :
    AITaskParser.extractPriority "do it eventually" = "low"
    ∧ AITaskParser.extractPriority "nothing special" = "medium" :=
  ⟨c8_priority_precedence.2.2.1 "do it eventually" (by decide) (by decide) (by decide),
   c8_priority_precedence.2.2.2.2.1 "nothing special"
     (by decide) (by decide) (by decide) (by decide)⟩

/-! ### Claim C10 — 12-hour conversion edge cases -/

/-- Claim C10: when a clock time is matched, hour 12 pm stays 12 (noon),
12 am becomes 0 (midnight), other pm hours gain 12, other am hours are kept;
without a match the default (17, 0) applies (concrete cases included). -/
theorem c10_twelve_hour :
    (∀ (input : String) (h mm : Nat) (pm : Bool),
      findTime input = some (h, mm, pm) →
      AITaskParser.extractTime input =
        ((if pm then (if h = 12 then 12 else h + 12)
          else (if h = 12 then 0 else h)), mm))
    ∧ AITaskParser.extractTime "by 12 pm" = (12, 0)
    ∧ AITaskParser.extractTime "by 12 am" = (0, 0)
    ∧ AITaskParser.extractTime "by 3 pm" = (15, 0)
    ∧ AITaskParser.extractTime "by 3:45 am" = (3, 45) := by
  refine ⟨?_, by decide, by decide, by decide, by decide⟩
  intro input h mm pm hf
  cases pm <;> by_cases h12 : h = 12 <;>
    simp [AITaskParser.extractTime, hf, h12]

/-- Witness for `c10_twelve_hour`: the general clause applied at "12 am". -/
theorem c10_twelve_hour_witness :
    AITaskParser.extractTime "at 12 am sharp" = (0, 0) :=
  (c10_twelve_hour.1 "at 12 am sharp" 12 0 false (by decide)).trans (by decide)

/-! ### Claim C1 — totality and schema validity of `parse` -/

/-- Claim C1, refuted as stated: on the model path a whitespace-only (truthy)
candidate title normalizes to the empty string, so the returned `ParsedTask`
violates the declared title domain (non-empty, defaulting to
"Untitled Task") even though no failure occurred. -/
theorem c1_model_blank_title :
    (AITaskParser.parse "hello" (mkDT 2025 6 1 9 0)
      (.ok ⟨.jstr " ", .jundef, .jstr "high", .jstr "work", .jnull,
            .jarr []⟩)).title = ""
    ∧ ("" : String) ≠ "Untitled Task" :=
  ⟨by decide, by decide⟩

/-- Claim C1 as amended: `parse` is a total function — every model-path
failure outcome returns exactly the rule-based fallback result — and every
result has `priority`/`category` inside their enum domains (`dueDate` and
`tags` are domain-correct by type).  The fallback's title is moreover always
non-empty and whitespace-collapsed; on the model path that title guarantee
does not hold (see the counterexample). -/
theorem c1_parse_total_amended :
    (∀ (input : String) (now : DT) (oc : AITaskParser.ModelOutcome),
      (AITaskParser.parse input now oc).priority ∈ validPriorities ∧
      (AITaskParser.parse input now oc).category ∈ validCategories)
    ∧ (∀ (input : String) (now : DT) (oc : AITaskParser.ModelOutcome),
        oc = .noKey ∨ oc = .failed ∨ oc = .badShape →
        AITaskParser.parse input now oc = AITaskParser.fallbackParse input now)
    ∧ (∀ input : String,
        AITaskParser.extractTitle input ≠ "" ∧
        titleShapeOK (AITaskParser.extractTitle input).data = true) := by
  refine ⟨?_, ?_, ?_⟩
  · intro input now oc
    cases oc with
    | ok c => exact ⟨validate_priority_mem c, validate_category_mem c⟩
    | noKey => exact ⟨extractPriority_mem _, extractCategory_mem _⟩
    | failed => exact ⟨extractPriority_mem _, extractCategory_mem _⟩
    | badShape => exact ⟨extractPriority_mem _, extractCategory_mem _⟩
  · intro input now oc h
    rcases h with h | h | h <;> rw [h] <;> rfl
  · intro input
    exact ⟨extractTitle_ne_empty input, extractTitle_shape input⟩

/-- Witness for `c1_parse_total_amended`: the failure-fallback clause
discharged at a concrete outcome, together with a schema fact there. -/
theorem c1_parse_total_witness :
    AITaskParser.parse "" (mkDT 2025 6 1 9 0) .noKey =
      AITaskParser.fallbackParse "" (mkDT 2025 6 1 9 0)
    ∧ (AITaskParser.parse "" (mkDT 2025 6 1 9 0) .noKey).priority ∈ validPriorities :=
  ⟨c1_parse_total_amended.2.1 "" (mkDT 2025 6 1 9 0) .noKey (Or.inl rfl),
   (c1_parse_total_amended.1 "" (mkDT 2025 6 1 9 0) .noKey).1⟩

/-! ### Time-of-day lemmas for the due-date cascade -/

theorem ediv_emod_fact (a b : Int) (hb : 0 < b) :
    a = b * (a.ediv b) + a.emod b ∧ 0 ≤ a.emod b ∧ a.emod b < b :=
  ⟨(Int.ediv_add_emod a b).symm, Int.emod_nonneg a (ne_of_gt hb),
   Int.emod_lt_of_pos a hb⟩

theorem getHours_getMinutes (t : DT) :
    getHours t * 60 + getMinutes t = t.mins.emod 1440 := by
  simp only [getHours, getMinutes]
  have f1 := ediv_emod_fact t.mins 1440 (by norm_num)
  have f2 := ediv_emod_fact t.mins 60 (by norm_num)
  have f3 := ediv_emod_fact (t.mins.emod 1440) 60 (by norm_num)
  omega

theorem tod_withTime (b : DT) (h mi : Int) :
    (AITaskParser.withTime b h mi).mins.emod 1440 = (h * 60 + mi).emod 1440 := by
  simp only [AITaskParser.withTime, setMinutesJS, setHoursJS]
  have f1 := ediv_emod_fact b.mins 1440 (by norm_num)
  have f2 := ediv_emod_fact b.mins 60 (by norm_num)
  have f3 := ediv_emod_fact
    (b.mins - b.mins.emod 1440 + h * 60 + b.mins.emod 60) 60 (by norm_num)
  have f4 := ediv_emod_fact
    (b.mins - b.mins.emod 1440 + h * 60 + b.mins.emod 60 -
      (b.mins - b.mins.emod 1440 + h * 60 + b.mins.emod 60).emod 60 + mi) 1440
    (by norm_num)
  have f5 := ediv_emod_fact (h * 60 + mi) 1440 (by norm_num)
  omega

theorem tod_jsMakeDate (y mo d h mi : Int) :
    (jsMakeDate y mo d h mi).mins.emod 1440 = (h * 60 + mi).emod 1440 := by
  simp only [jsMakeDate]
  have f1 := ediv_emod_fact
    ((daysFromCivil ((if 0 ≤ y ∧ y ≤ 99 then y + 1900 else y) + mo.ediv 12)
        (mo.emod 12 + 1) 1 + (d - 1)) * 1440 + h * 60 + mi) 1440 (by norm_num)
  have f2 := ediv_emod_fact (h * 60 + mi) 1440 (by norm_num)
  omega

theorem tod_setFullYear (t : DT) (y : Int) :
    (setFullYearJS t y).mins.emod 1440 = t.mins.emod 1440 := by
  simp only [setFullYearJS]
  have f1 := ediv_emod_fact
    (daysFromCivil y (civilFromDays (t.mins.ediv 1440)).2.1
        (civilFromDays (t.mins.ediv 1440)).2.2 * 1440 + t.mins.emod 1440) 1440
    (by norm_num)
  have f2 := ediv_emod_fact t.mins 1440 (by norm_num)
  omega

theorem day_withTime (b : DT) (h mi : Int) (h0 : 0 ≤ h * 60 + mi)
    (h1 : h * 60 + mi < 1440) :
    (AITaskParser.withTime b h mi).mins.ediv 1440 = b.mins.ediv 1440 := by
  simp only [AITaskParser.withTime, setMinutesJS, setHoursJS]
  have f1 := ediv_emod_fact b.mins 1440 (by norm_num)
  have f2 := ediv_emod_fact b.mins 60 (by norm_num)
  have f3 := ediv_emod_fact
    (b.mins - b.mins.emod 1440 + h * 60 + b.mins.emod 60) 60 (by norm_num)
  have f4 := ediv_emod_fact
    (b.mins - b.mins.emod 1440 + h * 60 + b.mins.emod 60 -
      (b.mins - b.mins.emod 1440 + h * 60 + b.mins.emod 60).emod 60 + mi) 1440
    (by norm_num)
  omega

/-! ### Claim C6 — ordinal/month-name resolution and year rollover -/

/-- Claim C6: whenever the ordinal/month-name step resolves a (day, month)
pair, the due date is that day and month in the current calendar year at the
extracted time of day; when that naive date lies strictly before `now` the
year is set to exactly the next calendar year — never further.  Concretely,
with `now = 2025-12-20`, "Submit taxes 5th January" resolves to
2026-01-05T17:00. -/
theorem c6_ordinal_rollover :
    (∀ (input : String) (now : DT) (day month : Nat),
      ordinalPick input = some (day, month) →
      AITaskParser.extractDueDate input now =
        some (if jsMakeDate (getFullYear now) (month : Int) (day : Int)
                  ((AITaskParser.extractTime input).1 : Int)
                  ((AITaskParser.extractTime input).2 : Int) < now
              then setFullYearJS
                (jsMakeDate (getFullYear now) (month : Int) (day : Int)
                  ((AITaskParser.extractTime input).1 : Int)
                  ((AITaskParser.extractTime input).2 : Int))
                (getFullYear now + 1)
              else jsMakeDate (getFullYear now) (month : Int) (day : Int)
                ((AITaskParser.extractTime input).1 : Int)
                ((AITaskParser.extractTime input).2 : Int)))
    ∧ AITaskParser.extractDueDate "Submit taxes 5th January" (mkDT 2025 12 20 0 0) =
        some (mkDT 2026 1 5 17 0) := by
  refine ⟨?_, by decide⟩
  intro input now day month hpick
  simp only [AITaskParser.extractDueDate, hpick]

set_option maxHeartbeats 2000000 in
/-- Witness for `c6_ordinal_rollover`: the general clause applied to the
rollover example, whose ordinal match is (5, January). -/
theorem c6_ordinal_witness :
    AITaskParser.extractDueDate "Submit taxes 5th January" (mkDT 2025 12 20 0 0) =
      some (if jsMakeDate (getFullYear (mkDT 2025 12 20 0 0)) 0 5 17 0 <
                mkDT 2025 12 20 0 0
            then setFullYearJS (jsMakeDate (getFullYear (mkDT 2025 12 20 0 0)) 0 5 17 0)
              (getFullYear (mkDT 2025 12 20 0 0) + 1)
            else jsMakeDate (getFullYear (mkDT 2025 12 20 0 0)) 0 5 17 0) := by
  have h := c6_ordinal_rollover.1 "Submit taxes 5th January" (mkDT 2025 12 20 0 0)
    5 0 (by decide)
  exact h.trans (by decide)

/-! ### Claim C7 — time of day applied to every resolved date -/

theorem tod_numericResolve (m : Option (Nat × Nat × Option Nat)) (now : DT)
    (cy th tm : Int) (d : DT)
    (h : AITaskParser.numericResolve m now cy th tm = some d) :
    d.mins.emod 1440 = (th * 60 + tm).emod 1440 := by
  cases m with
  | none =>
    rw [show AITaskParser.numericResolve none now cy th tm = none from rfl] at h
    exact Option.noConfusion h
  | some v =>
    obtain ⟨first, second, oy⟩ := v
    rw [AITaskParser.numericResolve.eq_def] at h
    simp only at h
    split at h
    · next d0 hfind =>
      have hmem := List.mem_of_find?_eq_some hfind
      simp only [List.mem_cons, List.not_mem_nil, or_false] at hmem
      injection h with h2
      rw [← h2]
      split
      · rw [tod_setFullYear]
        rcases hmem with hm | hm <;> rw [hm, tod_jsMakeDate]
      · rcases hmem with hm | hm <;> rw [hm, tod_jsMakeDate]
    · exact absurd h (by simp)

/-- Claim C7: every date the cascade resolves carries the extracted time of
day — the matched `H[:MM] am/pm` time in 24-hour form, or the 17:00 default —
as its hours/minutes (modulo the day-carry for out-of-range matched values).
Concretely, "Meeting tomorrow at 3:30 PM" with `now = 2025-06-01T09:00`
resolves to 2025-06-02T15:30. -/
theorem c7_time_applied :
    (∀ (input : String) (now : DT) (d : DT),
      AITaskParser.extractDueDate input now = some d →
      getHours d * 60 + getMinutes d =
        (((AITaskParser.extractTime input).1 : Int) * 60 +
          ((AITaskParser.extractTime input).2 : Int)).emod 1440)
    ∧ AITaskParser.extractDueDate "Meeting tomorrow at 3:30 PM" (mkDT 2025 6 1 9 0) =
        some (mkDT 2025 6 2 15 30) := by
  refine ⟨?_, by decide⟩
  intro input now d h
  rw [getHours_getMinutes]
  simp only [AITaskParser.extractDueDate] at h
  split at h
  · injection h with h2
    rw [← h2]
    split
    · rw [tod_setFullYear, tod_jsMakeDate]
    · rw [tod_jsMakeDate]
  · split at h
    · next d2 hnum =>
      injection h with h2
      rw [← h2]
      exact tod_numericResolve _ _ _ _ _ _ hnum
    · split at h
      · next d2 hnum =>
        injection h with h2
        rw [← h2]
        exact tod_numericResolve _ _ _ _ _ _ hnum
      · split at h
        · injection h with h2
          rw [← h2, tod_withTime]
        · split at h
          · injection h with h2
            rw [← h2, tod_withTime]
          · split at h
            · injection h with h2
              rw [← h2, tod_withTime]
            · split at h
              · injection h with h2
                rw [← h2, tod_withTime]
              · split at h
                · injection h with h2
                  rw [← h2, tod_withTime]
                · split at h
                  · injection h with h2
                    rw [← h2, tod_withTime]
                  · exact absurd h (by simp)

/-- Witness for `c7_time_applied`: the general clause applied to the concrete
time-override example. -/
theorem c7_time_applied_witness :
    getHours (mkDT 2025 6 2 15 30) * 60 + getMinutes (mkDT 2025 6 2 15 30) =
      (((AITaskParser.extractTime "Meeting tomorrow at 3:30 PM").1 : Int) * 60 +
        ((AITaskParser.extractTime "Meeting tomorrow at 3:30 PM").2 : Int)).emod 1440 :=
  c7_time_applied.1 "Meeting tomorrow at 3:30 PM" (mkDT 2025 6 1 9 0)
    (mkDT 2025 6 2 15 30) (by decide)

/-! ### Claim C9 — "this week" resolves to Friday -/

/-- Claim C9, refuted as stated: the claim asserts the "this week" branch
lands on a Friday for every `now`.  When `now` is a Saturday (weekday 6) the
computed offset is −1, so 7 days are added and the result is the next
Saturday: "finish this week" at `now = 2025-06-07` (a Saturday) resolves to
2025-06-14T17:00, whose weekday is 6, not Friday (5). -/
theorem c9_saturday :
    AITaskParser.extractDueDate "finish this week" (mkDT 2025 6 7 9 0) =
      some (mkDT 2025 6 14 17 0)
    ∧ getDay (mkDT 2025 6 7 9 0) = 6
    ∧ getDay (mkDT 2025 6 14 17 0) = 6
    ∧ ((6 : Int) ≠ 5) :=
  ⟨by decide, by decide, by decide, by decide⟩

/-- Claim C9 as amended: when a "this week" phrase fires (no earlier pattern
matched) the branch adds `5 − weekday(now)` days when that offset is positive
and 7 days otherwise; with a time of day inside one day, the result falls on
the coming Friday for every `now` whose weekday is Sunday…Friday, but on the
following Saturday when `now` is a Saturday. -/
theorem c9_this_week_amended :
    ∀ (input : String) (now : DT),
      ordinalPick input = none →
      findNumSlash input = none →
      findNumDot input = none →
      testWordAlts AITaskParser.todayWords (toLowerStr input) = false →
      testWordAlts AITaskParser.tomorrowWords (toLowerStr input) = false →
      testWordAlts AITaskParser.thisWeekWords (toLowerStr input) = true →
      ((AITaskParser.extractTime input).1 : Int) * 60 +
        ((AITaskParser.extractTime input).2 : Int) < 1440 →
      ∃ d, AITaskParser.extractDueDate input now = some d ∧
        getDay d = (if getDay now = 6 then 6 else 5) := by
  intro input now h1 h2 h3 h4 h5 h6 hb
  have hnr : ∀ (nw : DT) (cy th tm : Int),
      AITaskParser.numericResolve none nw cy th tm = none := fun _ _ _ _ => rfl
  have heq : AITaskParser.extractDueDate input now =
      some (AITaskParser.withTime
        (addDays now (if 0 < 5 - getDay now then 5 - getDay now else 7))
        ((AITaskParser.extractTime input).1 : Int)
        ((AITaskParser.extractTime input).2 : Int)) := by
    simp only [AITaskParser.extractDueDate, h1, h2, h3, h4, h5, h6, hnr,
      Bool.false_eq_true, if_false, if_true]
  refine ⟨_, heq, ?_⟩
  have hpos : (0 : Int) ≤ ((AITaskParser.extractTime input).1 : Int) * 60 +
      ((AITaskParser.extractTime input).2 : Int) := by omega
  show ((AITaskParser.withTime
      (addDays now (if 0 < 5 - getDay now then 5 - getDay now else 7))
      ((AITaskParser.extractTime input).1 : Int)
      ((AITaskParser.extractTime input).2 : Int)).mins.ediv 1440 + 4).emod 7 =
    (if getDay now = 6 then 6 else 5)
  rw [day_withTime _ _ _ hpos hb]
  simp only [addDays, getDay]
  have f1 := ediv_emod_fact now.mins 1440 (by norm_num)
  have f2 := ediv_emod_fact (now.mins.ediv 1440 + 4) 7 (by norm_num)
  by_cases hw6 : (now.mins.ediv 1440 + 4).emod 7 = 6
  · rw [if_pos hw6]
    have hoff : ¬(0 < 5 - (now.mins.ediv 1440 + 4).emod 7) := by omega
    rw [if_neg hoff]
    have f3 := ediv_emod_fact (now.mins + 7 * 1440) 1440 (by norm_num)
    have f4 := ediv_emod_fact ((now.mins + 7 * 1440).ediv 1440 + 4) 7 (by norm_num)
    omega
  · rw [if_neg hw6]
    by_cases hoff : 0 < 5 - (now.mins.ediv 1440 + 4).emod 7
    · rw [if_pos hoff]
      have f3 := ediv_emod_fact
        (now.mins + (5 - (now.mins.ediv 1440 + 4).emod 7) * 1440) 1440 (by norm_num)
      have f4 := ediv_emod_fact
        ((now.mins + (5 - (now.mins.ediv 1440 + 4).emod 7) * 1440).ediv 1440 + 4) 7
        (by norm_num)
      omega
    · rw [if_neg hoff]
      have f3 := ediv_emod_fact (now.mins + 7 * 1440) 1440 (by norm_num)
      have f4 := ediv_emod_fact ((now.mins + 7 * 1440).ediv 1440 + 4) 7 (by norm_num)
      omega

/-- Witness for `c9_this_week_amended`: a Wednesday `now` (2025-06-04), where
the branch lands on Friday. -/
theorem c9_this_week_witness :
    ∃ d, AITaskParser.extractDueDate "finish this week" (mkDT 2025 6 4 9 0) =
      some d ∧ getDay d = (if getDay (mkDT 2025 6 4 9 0) = 6 then 6 else 5) :=
  c9_this_week_amended "finish this week" (mkDT 2025 6 4 9 0)
    (by decide) (by decide) (by decide) (by decide) (by decide) (by decide) (by decide)

end TodoAI